import Mathlib

/-!
Verification development for the debateAI repository.

This file gives a shallow embedding of the core of the application:
the text utilities (JavaScript `split(/\s+/)`, `trim`, word counting),
the word-cap enforcement, the AI-response truncation, the grading
formatter and its deterministic fallback, the `DebateManager` session
store and its operations, and the `POST /api/debate/:sessionId/submit`
route handler.  Strings are modelled as Lean `String`/`List Char`;
JavaScript numbers appearing here are non-negative integers and are
modelled as `Nat` (with `Math.round` made explicit); the in-memory
`Map<string, DebateSession>` is modelled as a function
`String → Option DebateSession`; `new Date().toISOString()` timestamps
are modelled as an abstract `Nat` supplied by the caller.
-/

/-! ### JavaScript string primitives -/

/-- Operational model of JavaScript `s.split(/\s+/)` on a list of
characters.  The first argument is `true` while a run of whitespace is
being skipped and `false` while a token is being accumulated (in
reverse) in the second argument.  A leading whitespace run produces a
leading empty field and a trailing whitespace run produces a trailing
empty field, exactly as in JavaScript. -/
def jsSplitGo : Bool → List Char → List Char → List (List Char)
  | _, cur, [] => [cur.reverse]
  | true, cur, c :: rest =>
    if c.isWhitespace then jsSplitGo true cur rest
    else jsSplitGo false [c] rest
  | false, cur, c :: rest =>
    if c.isWhitespace then cur.reverse :: jsSplitGo true [] rest
    else jsSplitGo false (c :: cur) rest

/-- JavaScript `s.split(/\s+/)`. -/
def jsSplit (s : List Char) : List (List Char) := jsSplitGo false [] s

/-- JavaScript `s.trim()`: remove leading and trailing whitespace. -/
def jsTrim (s : List Char) : List Char :=
  ((s.dropWhile Char.isWhitespace).reverse.dropWhile Char.isWhitespace).reverse

/-- `DebateManager.getWordCount` / `GeminiService.getWordCount`:
`text.trim().split(/\s+/).filter(word => word.length > 0).length`. -/
def getWordCount (text : String) : Nat :=
  ((jsSplit (jsTrim text.toList)).filter (fun w => w.length > 0)).length

/-! ### Counting word runs

`countRunsGo b s` counts the maximal runs of non-whitespace characters
in `s`, where `b` records whether the scan is currently inside such a
run.  It is the reference quantity the word-count lemmas go through. -/

def countRunsGo : Bool → List Char → Nat
  | _, [] => 0
  | inWord, c :: rest =>
    if c.isWhitespace then countRunsGo false rest
    else (if inWord then 0 else 1) + countRunsGo true rest

def countRuns (s : List Char) : Nat := countRunsGo false s

/-- The run-scanner state after processing a list. -/
def finalStateGo : Bool → List Char → Bool
  | b, [] => b
  | _, c :: rest => finalStateGo (!c.isWhitespace) rest

theorem countRunsGo_append (xs : List Char) :
    ∀ (b : Bool) (ys : List Char),
      countRunsGo b (xs ++ ys) = countRunsGo b xs + countRunsGo (finalStateGo b xs) ys := by
  induction xs with
  | nil => intro b ys; simp [countRunsGo, finalStateGo]
  | cons c rest ih =>
    intro b ys
    by_cases hw : c.isWhitespace
    · simp [countRunsGo, finalStateGo, hw, ih]
    · simp [countRunsGo, finalStateGo, hw, ih, Nat.add_assoc]

theorem countRunsGo_allWS {ys : List Char} (h : ∀ c ∈ ys, c.isWhitespace) :
    ∀ b, countRunsGo b ys = 0 := by
  induction ys with
  | nil => intro b; rfl
  | cons c rest ih =>
    intro b
    have hc : c.isWhitespace = true := h c (List.mem_cons_self c rest)
    have hrest : ∀ c ∈ rest, c.isWhitespace = true := fun x hx => h x (List.mem_cons_of_mem _ hx)
    simp [countRunsGo, hc, ih hrest]

theorem countRunsGo_wsFree {w : List Char} (h : ∀ c ∈ w, c.isWhitespace = false) :
    ∀ b, countRunsGo b w ≤ 1 ∧ countRunsGo true w = 0 := by
  induction w with
  | nil => intro b; exact ⟨Nat.zero_le 1, rfl⟩
  | cons c rest ih =>
    intro b
    have hc : c.isWhitespace = false := h c (List.mem_cons_self c rest)
    have hrest : ∀ x ∈ rest, x.isWhitespace = false := fun x hx => h x (List.mem_cons_of_mem _ hx)
    have h0 : countRunsGo true rest = 0 := (ih hrest true).2
    constructor
    · cases b <;> simp [countRunsGo, hc, h0]
    · simp [countRunsGo, hc, h0]

theorem countRunsGo_prefix_le (xs ys : List Char) (b : Bool) :
    countRunsGo b xs ≤ countRunsGo b (xs ++ ys) := by
  rw [countRunsGo_append]
  exact Nat.le_add_right _ _

theorem countRunsGo_dropWhile (s : List Char) :
    countRunsGo false (s.dropWhile Char.isWhitespace) = countRunsGo false s := by
  induction s with
  | nil => rfl
  | cons c rest ih =>
    by_cases hw : c.isWhitespace
    · simp [List.dropWhile, hw, countRunsGo, ih]
    · simp [List.dropWhile, hw]

/-- Trimming does not change the number of word runs. -/
theorem countRuns_jsTrim (s : List Char) : countRuns (jsTrim s) = countRuns s := by
  unfold countRuns jsTrim
  set t := s.dropWhile Char.isWhitespace with ht
  have hsplit : t = (t.reverse.dropWhile Char.isWhitespace).reverse
      ++ (t.reverse.takeWhile Char.isWhitespace).reverse := by
    have := List.takeWhile_append_dropWhile (p := Char.isWhitespace) (l := t.reverse)
    calc t = t.reverse.reverse := by rw [List.reverse_reverse]
    _ = (t.reverse.takeWhile Char.isWhitespace ++ t.reverse.dropWhile Char.isWhitespace).reverse := by
        rw [this]
    _ = _ := by rw [List.reverse_append]
  have hws : ∀ c ∈ (t.reverse.takeWhile Char.isWhitespace).reverse, c.isWhitespace := by
    intro c hc
    rw [List.mem_reverse] at hc
    exact List.mem_takeWhile_imp hc
  have h1 : countRunsGo false t
      = countRunsGo false ((t.reverse.dropWhile Char.isWhitespace).reverse)
        + countRunsGo (finalStateGo false ((t.reverse.dropWhile Char.isWhitespace).reverse))
            ((t.reverse.takeWhile Char.isWhitespace).reverse) := by
    conv_lhs => rw [hsplit]
    exact countRunsGo_append _ _ _
  rw [countRunsGo_allWS hws] at h1
  rw [← countRunsGo_dropWhile s, ← ht, h1, Nat.add_zero]

/-- The number of non-empty fields of `split(/\s+/)` is the number of
maximal non-whitespace runs. -/
theorem jsSplitGo_filter_length (s : List Char) :
    (((jsSplitGo true [] s).filter (fun w => w.length > 0)).length = countRunsGo false s)
    ∧ ∀ cur : List Char,
        ((jsSplitGo false cur s).filter (fun w => w.length > 0)).length
          = (if cur = [] then 0 else 1) + countRunsGo (!cur.isEmpty) s := by
  induction s with
  | nil =>
    refine ⟨by simp [jsSplitGo, countRunsGo], ?_⟩
    intro cur
    cases cur with
    | nil => simp [jsSplitGo, countRunsGo]
    | cons a l =>
      simp [jsSplitGo, countRunsGo, List.filter_cons, Nat.succ_pos]
  | cons c rest ih =>
    by_cases hw : c.isWhitespace
    · refine ⟨by simp [jsSplitGo, countRunsGo, hw, ih.1], ?_⟩
      intro cur
      cases cur with
      | nil => simp [jsSplitGo, countRunsGo, hw, ih.1]
      | cons a l =>
        simp [jsSplitGo, countRunsGo, hw, ih.1, List.filter_cons, Nat.succ_pos]
        omega
    · have h2 := ih.2
      refine ⟨?_, ?_⟩
      · have h1 := h2 [c]
        simp only [jsSplitGo, if_neg hw] at *
        rw [h1]
        simp [countRunsGo, hw]
      · intro cur
        have h1 := h2 (c :: cur)
        simp only [jsSplitGo, if_neg hw] at *
        rw [h1]
        cases cur <;> simp [countRunsGo, hw]

theorem getWordCount_eq_countRuns (text : String) :
    getWordCount text = countRuns text.toList := by
  unfold getWordCount jsSplit
  rw [(jsSplitGo_filter_length (jsTrim text.toList)).2 []]
  simpa [countRuns] using countRuns_jsTrim text.toList

/-- Every field produced by `split(/\s+/)` is free of whitespace. -/
theorem jsSplitGo_wsFree (s : List Char) :
    ∀ (b : Bool) (cur : List Char), (∀ c ∈ cur, c.isWhitespace = false) →
      ∀ w ∈ jsSplitGo b cur s, ∀ c ∈ w, c.isWhitespace = false := by
  induction s with
  | nil =>
    intro b cur hcur w hw c hc
    simp [jsSplitGo] at hw
    subst hw
    exact hcur c (List.mem_reverse.mp hc)
  | cons x rest ih =>
    intro b cur hcur w hw c hc
    by_cases hx : x.isWhitespace
    · cases b with
      | true =>
        simp only [jsSplitGo, if_pos hx] at hw
        exact ih true cur hcur w hw c hc
      | false =>
        simp only [jsSplitGo, if_pos hx, List.mem_cons] at hw
        rcases hw with hw | hw
        · subst hw
          exact hcur c (List.mem_reverse.mp hc)
        · exact ih true [] (by simp) w hw c hc
    · have hx' : x.isWhitespace = false := by simpa using hx
      cases b with
      | true =>
        simp only [jsSplitGo, if_neg hx] at hw
        refine ih false [x] ?_ w hw c hc
        intro y hy
        simp at hy
        subst hy
        exact hx'
      | false =>
        simp only [jsSplitGo, if_neg hx] at hw
        refine ih false (x :: cur) ?_ w hw c hc
        intro y hy
        rcases List.mem_cons.mp hy with hy | hy
        · subst hy; exact hx'
        · exact hcur y hy

theorem getWordCount_mk (cs : List Char) : getWordCount (String.mk cs) = countRuns cs := by
  rw [getWordCount_eq_countRuns]
  rfl

theorem getWordCount_le_fields (text : String) :
    getWordCount text ≤ (jsSplit text.toList).length := by
  rw [getWordCount_eq_countRuns]
  have h1 : countRuns text.toList
      = ((jsSplit text.toList).filter (fun w => w.length > 0)).length := by
    unfold jsSplit
    rw [(jsSplitGo_filter_length text.toList).2 []]
    simp [countRuns]
  rw [h1]
  exact List.length_filter_le _ _

/-! ### `List.intercalate` with a single-space separator -/

theorem intercalate_nil : List.intercalate [' '] ([] : List (List Char)) = [] := by
  simp [List.intercalate]

theorem intercalate_single (a : List Char) : List.intercalate [' '] [a] = a := by
  simp [List.intercalate]

theorem intercalate_cons_cons (a b : List Char) (l : List (List Char)) :
    List.intercalate [' '] (a :: b :: l) = a ++ ' ' :: List.intercalate [' '] (b :: l) := by
  simp [List.intercalate, List.intersperse]

theorem countRunsGo_space (b : Bool) (t : List Char) :
    countRunsGo b (' ' :: t) = countRunsGo false t := by
  have hs : (' ').isWhitespace = true := by decide
  simp [countRunsGo, hs]

theorem countRuns_intercalate_append_le (suffix : List Char)
    (hs : ∀ c ∈ suffix, c.isWhitespace = false) :
    ∀ ws : List (List Char), ws ≠ [] →
      (∀ w ∈ ws, ∀ c ∈ w, c.isWhitespace = false) →
      countRuns (List.intercalate [' '] ws ++ suffix) ≤ ws.length := by
  intro ws
  induction ws with
  | nil => intro h; exact absurd rfl h
  | cons a l ih =>
    intro _ h
    have ha : ∀ c ∈ a, c.isWhitespace = false := h a (List.mem_cons_self a l)
    cases l with
    | nil =>
      rw [intercalate_single]
      have hfree : ∀ c ∈ a ++ suffix, c.isWhitespace = false := by
        intro c hc
        rcases List.mem_append.mp hc with hc | hc
        · exact ha c hc
        · exact hs c hc
      simpa using (countRunsGo_wsFree hfree false).1
    | cons b l2 =>
      rw [intercalate_cons_cons]
      have hassoc : (a ++ ' ' :: List.intercalate [' '] (b :: l2)) ++ suffix
          = a ++ ' ' :: (List.intercalate [' '] (b :: l2) ++ suffix) := by
        simp
      rw [hassoc]
      unfold countRuns
      rw [countRunsGo_append, countRunsGo_space]
      have h1 : countRunsGo false a ≤ 1 := (countRunsGo_wsFree ha false).1
      have h2 : countRunsGo false (List.intercalate [' '] (b :: l2) ++ suffix) ≤ (b :: l2).length := by
        have := ih (by simp) (fun w hw => h w (List.mem_cons_of_mem _ hw))
        simpa [countRuns] using this
      calc countRunsGo false a + countRunsGo false (List.intercalate [' '] (b :: l2) ++ suffix)
          ≤ 1 + (b :: l2).length := Nat.add_le_add h1 h2
      _ = (a :: b :: l2).length := by simp [Nat.add_comm]

theorem countRuns_intercalate_le :
    ∀ ws : List (List Char),
      (∀ w ∈ ws, ∀ c ∈ w, c.isWhitespace = false) →
      countRuns (List.intercalate [' '] ws) ≤ ws.length := by
  intro ws
  induction ws with
  | nil => intro _; simp [intercalate_nil, countRuns, countRunsGo]
  | cons a l ih =>
    intro h
    have ha : ∀ c ∈ a, c.isWhitespace = false := h a (List.mem_cons_self a l)
    cases l with
    | nil =>
      rw [intercalate_single]
      simpa using (countRunsGo_wsFree ha false).1
    | cons b l2 =>
      rw [intercalate_cons_cons]
      unfold countRuns
      rw [countRunsGo_append, countRunsGo_space]
      have h1 : countRunsGo false a ≤ 1 := (countRunsGo_wsFree ha false).1
      have h2 : countRunsGo false (List.intercalate [' '] (b :: l2)) ≤ (b :: l2).length := by
        have := ih (fun w hw => h w (List.mem_cons_of_mem _ hw))
        simpa [countRuns] using this
      calc countRunsGo false a + countRunsGo false (List.intercalate [' '] (b :: l2))
          ≤ 1 + (b :: l2).length := Nat.add_le_add h1 h2
      _ = (a :: b :: l2).length := by simp [Nat.add_comm]

theorem countRuns_take_le (n : Nat) (l : List Char) :
    countRuns (l.take n) ≤ countRuns l := by
  unfold countRuns
  conv_rhs => rw [← List.take_append_drop n l]
  exact countRunsGo_prefix_le _ _ _

/-- The fields of `jsSplit` are free of whitespace. -/
theorem jsSplit_wsFree {s : List Char} {w : List Char} (hw : w ∈ jsSplit s) :
    ∀ c ∈ w, c.isWhitespace = false :=
  jsSplitGo_wsFree s false [] (by simp) w hw

/-! ### `enforceWordCap` (word-cap utility) -/

/-- Result shape of `enforceWordCap`: `{ truncated, violations }`. -/
structure WordCapResult where
  truncated : String
  violations : Nat
  deriving DecidableEq

/-- `enforceWordCap(input, maxWords)` from the repository:
splits on `/\s+/` (note: without filtering empty fields), returns the
input unchanged when the field count is within the cap, and otherwise
joins the first `maxWords` fields with single spaces and reports the
excess as `violations`. -/
def enforceWordCap (input : String) (maxWords : Nat) : WordCapResult :=
  let words := jsSplit input.toList
  let wordCount := words.length
  if wordCount ≤ maxWords then ⟨input, 0⟩
  else ⟨String.mk (List.intercalate [' '] (words.take maxWords)), wordCount - maxWords⟩

/-- JavaScript `s.lastIndexOf(c)`: index of the last occurrence, `-1`
when absent. -/
def jsLastIndexOf (s : List Char) (c : Char) : Int :=
  match s.reverse.findIdx? (fun x => x = c) with
  | some i => (s.length : Int) - 1 - i
  | none => -1

/-- `GeminiService.truncateToWordLimit(text, wordLimit)` from
`src/lib/logger.ts`: if the trimmed text has at most `wordLimit`
whitespace-separated words, the text is returned unchanged; otherwise
the first `wordLimit` words are joined with single spaces, and the
result either ends at the last `'.'` when that period sits in the
final 20% of the joined string (the JavaScript comparison
`lastPeriod > truncated.length * 0.8` is modelled exactly over the
rationals as `5 * lastPeriod > 4 * length`) or gets a literal `"..."`
appended. -/
def truncateToWordLimit (text : String) (wordLimit : Nat) : String :=
  let words := jsSplit (jsTrim text.toList)
  if words.length ≤ wordLimit then text
  else
    let truncated := List.intercalate [' '] (words.take wordLimit)
    let lastPeriod := jsLastIndexOf truncated '.'
    if 5 * lastPeriod > 4 * (truncated.length : Int) then
      String.mk (truncated.take (lastPeriod + 1).toNat)
    else
      String.mk (truncated ++ ['.', '.', '.'])

/-- Words of the trimmed split are whitespace-free (needed for the
truncation bounds). -/
theorem take_jsSplit_wsFree (s : List Char) (n : Nat) :
    ∀ w ∈ (jsSplit s).take n, ∀ c ∈ w, c.isWhitespace = false := by
  intro w hw
  exact jsSplit_wsFree (List.take_subset n (jsSplit s) hw)

/-! ### Claim C7 -/

/-- Claim C7, as stated, is false on the code: `enforceWordCap` counts
the fields of `input.split(/\s+/)` without filtering empty fields, so
an input with trailing (or leading) whitespace produces an extra empty
field.  At `T = "a "` and positive limit `L = 1` the word count
(non-empty tokens) is 1, so the claim predicts
`violations = max(0, 1 - 1) = 0`, but the code returns
`violations = 1`. -/
theorem c7_counterexample :
    ¬ ((enforceWordCap "a " 1).violations = max 0 (getWordCount "a " - 1)) := by
  decide

/-- Claim C7, amended: for every text and limit, the `violations`
count equals `max(0, fields − L)` where `fields` counts all
`split(/\s+/)` fields including the empty boundary fields produced by
leading/trailing whitespace (on texts without leading or trailing
whitespace this is the non-empty word count), and the truncated output
always has word count at most `L`. -/
theorem c7_amended (input : String) (L : Nat) :
    (enforceWordCap input L).violations = (jsSplit input.toList).length - L
    ∧ getWordCount (enforceWordCap input L).truncated ≤ L := by
  unfold enforceWordCap
  by_cases h : (jsSplit input.toList).length ≤ L
  · simp only [if_pos h]
    exact ⟨(Nat.sub_eq_zero_of_le h).symm, le_trans (getWordCount_le_fields input) h⟩
  · simp only [if_neg h]
    refine ⟨trivial, ?_⟩
    rw [getWordCount_mk]
    calc countRuns (List.intercalate [' '] ((jsSplit input.toList).take L))
        ≤ ((jsSplit input.toList).take L).length :=
          countRuns_intercalate_le _ (take_jsSplit_wsFree _ L)
    _ ≤ L := by rw [List.length_take]; exact Nat.min_le_left _ _

/-! ### Claim C8 -/

/-- Claim C8: when the text's word count exceeds the limit,
`truncateToWordLimit` joins the first `wordLimit` words, ends the
result at the last period when that period lies in the final 20% of
the joined string, and otherwise appends an ellipsis; in both cases
the result's word count is at most the limit.  (The word limit is
assumed positive, matching the positive word caps the service passes
in.) -/
theorem c8_truncation (text : String) (wordLimit : Nat) (hpos : 0 < wordLimit)
    (h : getWordCount text > wordLimit) :
    (truncateToWordLimit text wordLimit =
      (let truncated := List.intercalate [' ']
          ((jsSplit (jsTrim text.toList)).take wordLimit)
       if 5 * jsLastIndexOf truncated '.' > 4 * (truncated.length : Int) then
         String.mk (truncated.take (jsLastIndexOf truncated '.' + 1).toNat)
       else String.mk (truncated ++ ['.', '.', '.'])))
    ∧ getWordCount (truncateToWordLimit text wordLimit) ≤ wordLimit := by
  have hfields : ¬ ((jsSplit (jsTrim text.toList)).length ≤ wordLimit) := by
    intro hle
    have : getWordCount text ≤ (jsSplit (jsTrim text.toList)).length :=
      List.length_filter_le _ _
    omega
  have hunfold : truncateToWordLimit text wordLimit =
      (let truncated := List.intercalate [' ']
          ((jsSplit (jsTrim text.toList)).take wordLimit)
       if 5 * jsLastIndexOf truncated '.' > 4 * (truncated.length : Int) then
         String.mk (truncated.take (jsLastIndexOf truncated '.' + 1).toNat)
       else String.mk (truncated ++ ['.', '.', '.'])) := by
    unfold truncateToWordLimit
    simp only [if_neg hfields]
  refine ⟨hunfold, ?_⟩
  rw [hunfold]
  set words := jsSplit (jsTrim text.toList) with hwords
  set truncated := List.intercalate [' '] (words.take wordLimit) with htr
  have hlen : (words.take wordLimit).length ≤ wordLimit := by
    rw [List.length_take]; exact Nat.min_le_left _ _
  have hbound : countRuns truncated ≤ wordLimit :=
    le_trans (countRuns_intercalate_le _ (take_jsSplit_wsFree _ wordLimit)) hlen
  by_cases hper : 5 * jsLastIndexOf truncated '.' > 4 * (truncated.length : Int)
  · simp only [if_pos hper]
    rw [getWordCount_mk]
    exact le_trans (countRuns_take_le _ _) hbound
  · simp only [if_neg hper]
    rw [getWordCount_mk]
    have hne : words.take wordLimit ≠ [] := by
      have : (words.take wordLimit).length = min wordLimit words.length := List.length_take _ _
      have hpos' : 0 < (words.take wordLimit).length := by omega
      exact List.ne_nil_of_length_pos hpos'
    have hdots : ∀ c ∈ ['.', '.', '.'], Char.isWhitespace c = false := by decide
    exact le_trans
      (countRuns_intercalate_append_le ['.', '.', '.'] hdots (words.take wordLimit) hne
        (take_jsSplit_wsFree _ wordLimit)) hlen

/-- Concrete instantiation of `c8_truncation` at a six-word text with
limit 5 (period kept: it lies in the final 20% of the cut). -/
theorem c8_truncation_witness :
    (0 < 5 ∧ getWordCount "one two three four five. six" > 5)
    ∧ getWordCount (truncateToWordLimit "one two three four five. six" 5) ≤ 5 :=
  ⟨by decide, (c8_truncation "one two three four five. six" 5 (by decide) (by decide)).2⟩

/-! ### Grading data model (`src` types) and the grading formatter -/

inductive RoundType
  | constructive
  | crossEx
  | rebuttal
  | closing
  deriving DecidableEq

structure ConstructiveGrading where
  clarityStructure : Nat
  evidenceReasoning : Nat
  framing : Nat
  subtotal : Nat
  deriving DecidableEq

structure CrossExGrading where
  responsiveness : Nat
  control : Nat
  subtotal : Nat
  deriving DecidableEq

structure RebuttalGrading where
  refutation : Nat
  defense : Nat
  efficiencyFocus : Nat
  subtotal : Nat
  deriving DecidableEq

structure ClosingGrading where
  crystallization : Nat
  comparativeWeighing : Nat
  delivery : Nat
  subtotal : Nat
  deriving DecidableEq

/-- `GradingData` from the shared types: four category blocks plus a
final score. -/
structure GradingData where
  constructive : ConstructiveGrading
  crossEx : CrossExGrading
  rebuttal : RebuttalGrading
  closing : ClosingGrading
  finalScore : Nat
  deriving DecidableEq

/-- `Partial<GradingData>`: each block may be absent. -/
structure PartialGradingData where
  constructive : Option ConstructiveGrading := none
  crossEx : Option CrossExGrading := none
  rebuttal : Option RebuttalGrading := none
  closing : Option ClosingGrading := none
  deriving DecidableEq

/-- The `scores` object of a parsed Gemini grading response; each key
may be absent.  Scores are the non-negative integers the rubric asks
for (0–5). -/
structure ParsedScores where
  claritystructure : Option Nat := none
  clarity : Option Nat := none
  evidencereasoning : Option Nat := none
  evidence : Option Nat := none
  framing : Option Nat := none
  responsiveness : Option Nat := none
  control : Option Nat := none
  refutation : Option Nat := none
  defense : Option Nat := none
  efficiencyfocus : Option Nat := none
  efficiency : Option Nat := none
  crystallization : Option Nat := none
  comparativeweighing : Option Nat := none
  weighing : Option Nat := none
  delivery : Option Nat := none
  deriving DecidableEq

/-- JavaScript `a || d` for an optional number against a default:
both `undefined` and `0` are falsy. -/
def jsOrN : Option Nat → Nat → Nat
  | some n, d => if n = 0 then d else n
  | none, d => d

/-- JavaScript `a || b` for two optional numbers. -/
def jsOrO : Option Nat → Option Nat → Option Nat
  | some n, o => if n = 0 then o else some n
  | none, o => o

/-- `Math.round (a / b)` for non-negative `a`, positive `b` (round
half away from zero, which for non-negative arguments is
`⌊a/b + 1/2⌋`).  The divisions `30/15`, `10/10`, `35/15`, `25/15`
appearing below stay far enough from half-integer boundaries that the
double-precision evaluation in JavaScript agrees with this exact
rational model on all 0–5 scores. -/
def jsRoundDiv (a b : Nat) : Nat := (2 * a + b) / (2 * b)

/-- `GeminiService.formatGradingResult` from `src/lib/logger.ts`:
defaults each (possibly alternately-keyed) raw score to 3 when absent
or zero, computes the weighted raw subtotal, and scales it with
`Math.round(subtotal * (categoryPoints / 15))` (`10/10` for
cross-examination). -/
def formatGradingResult (roundType : RoundType) (scores : ParsedScores) : PartialGradingData :=
  match roundType with
  | .constructive =>
    let clarityStructure := jsOrN (jsOrO scores.claritystructure scores.clarity) 3
    let evidenceReasoning := jsOrN (jsOrO scores.evidencereasoning scores.evidence) 3
    let framing := jsOrN scores.framing 3
    let subtotal := clarityStructure * 2 + evidenceReasoning * 2 + framing * 1
    { constructive := some ⟨clarityStructure, evidenceReasoning, framing,
        jsRoundDiv (subtotal * 30) 15⟩ }
  | .crossEx =>
    let responsiveness := jsOrN scores.responsiveness 3
    let control := jsOrN scores.control 3
    let subtotal := responsiveness + control
    { crossEx := some ⟨responsiveness, control, jsRoundDiv (subtotal * 10) 10⟩ }
  | .rebuttal =>
    let refutation := jsOrN scores.refutation 3
    let defense := jsOrN scores.defense 3
    let efficiencyFocus := jsOrN (jsOrO scores.efficiencyfocus scores.efficiency) 3
    let subtotal := refutation * 2 + defense * 2 + efficiencyFocus * 1
    { rebuttal := some ⟨refutation, defense, efficiencyFocus,
        jsRoundDiv (subtotal * 35) 15⟩ }
  | .closing =>
    let crystallization := jsOrN scores.crystallization 3
    let comparativeWeighing := jsOrN (jsOrO scores.comparativeweighing scores.weighing) 3
    let delivery := jsOrN scores.delivery 3
    let subtotal := crystallization * 2 + comparativeWeighing * 2 + delivery * 1
    { closing := some ⟨crystallization, comparativeWeighing, delivery,
        jsRoundDiv (subtotal * 25) 15⟩ }

/-- Result shape of `GeminiService.gradeResponse`:
`{ success, grading?, error? }`. -/
structure GradeResult where
  success : Bool
  grading : Option PartialGradingData := none
  error : Option String := none
  deriving DecidableEq

/-- `GeminiService.generateFallbackGrading` from `src/lib/logger.ts`,
with its hard-coded "adequate" scores and subtotals.  (The `default`
branch of the source `switch` is unreachable: the round type is the
four-valued union.) -/
def generateFallbackGrading (roundType : RoundType) : GradeResult :=
  match roundType with
  | .constructive =>
    ⟨true, some { constructive := some ⟨3, 3, 3, 18⟩ },
      some "Used fallback grading - Gemini API unavailable"⟩
  | .crossEx =>
    ⟨true, some { crossEx := some ⟨3, 3, 6⟩ },
      some "Used fallback grading - Gemini API unavailable"⟩
  | .rebuttal =>
    ⟨true, some { rebuttal := some ⟨3, 3, 3, 21⟩ },
      some "Used fallback grading - Gemini API unavailable"⟩
  | .closing =>
    ⟨true, some { closing := some ⟨3, 3, 3, 15⟩ },
      some "Used fallback grading - Gemini API unavailable"⟩

/-- `GeminiService.gradeResponse` with the external call abstracted:
`available` models `this.genAI && this.model` being configured and the
remote call not throwing; `parsed` models `JSON.parse` of the model
output succeeding with the given scores object.  Unavailability and
parse failure both fall back. -/
def gradeResponse (available : Bool) (parsed : Option ParsedScores)
    (roundType : RoundType) : GradeResult :=
  if available = false then generateFallbackGrading roundType
  else
    match parsed with
    | none => generateFallbackGrading roundType
    | some scores => ⟨true, some (formatGradingResult roundType scores), none⟩

/-! ### Claim C2 -/

/-- Claim C2 is contradicted by the code: with every raw score at the
maximum in-range value 5, the scaling `Math.round(subtotal * (cat/15))`
overflows the documented category maxima, because the weighted raw
subtotal can reach 25, not 15.  Constructive yields 50 (> 30, the
documented "/30"), rebuttal 58 (> 35) and closing 42 (> 25). -/
theorem c2_subtotal_overflow :
    ((formatGradingResult .constructive
        { claritystructure := some 5, evidencereasoning := some 5,
          framing := some 5 }).constructive
      = some ⟨5, 5, 5, 50⟩ ∧ ¬ (50 ≤ 30))
    ∧ ((formatGradingResult .rebuttal
        { refutation := some 5, defense := some 5,
          efficiencyfocus := some 5 }).rebuttal
      = some ⟨5, 5, 5, 58⟩ ∧ ¬ (58 ≤ 35))
    ∧ ((formatGradingResult .closing
        { crystallization := some 5, comparativeweighing := some 5,
          delivery := some 5 }).closing
      = some ⟨5, 5, 5, 42⟩ ∧ ¬ (42 ≤ 25)) := by
  decide

/-! ### Claim C9 -/

/-- Claim C9: when the external AI call is unavailable or its output
fails to parse, grading falls back to the fixed result that scores
every criterion of the round's rubric 3 and carries the hard-coded
subtotals 18, 6, 21 and 15 (the fixed per-criterion value summed over
the rubric's criteria — 9 resp. 6 — scaled by `30/15`, `10/10`,
`35/15`, `25/15` to the category allocation); the result is marked
fallback-derived through its `success`/`error` fields.  The fallback
is a pure function of the round type, hence reproducible on every
call. -/
theorem c9_fallback_grading (rt : RoundType) (available : Bool)
    (parsed : Option ParsedScores) (h : available = false ∨ parsed = none) :
    gradeResponse available parsed rt = generateFallbackGrading rt
    ∧ generateFallbackGrading rt =
        ⟨true,
          some (match rt with
            | .constructive =>
              { constructive := some ⟨3, 3, 3, jsRoundDiv ((3 + 3 + 3) * 30) 15⟩ }
            | .crossEx =>
              { crossEx := some ⟨3, 3, jsRoundDiv ((3 + 3) * 10) 10⟩ }
            | .rebuttal =>
              { rebuttal := some ⟨3, 3, 3, jsRoundDiv ((3 + 3 + 3) * 35) 15⟩ }
            | .closing =>
              { closing := some ⟨3, 3, 3, jsRoundDiv ((3 + 3 + 3) * 25) 15⟩ }),
          some "Used fallback grading - Gemini API unavailable"⟩
    ∧ (generateFallbackGrading rt).grading =
        some (match rt with
          | .constructive => { constructive := some ⟨3, 3, 3, 18⟩ }
          | .crossEx => { crossEx := some ⟨3, 3, 6⟩ }
          | .rebuttal => { rebuttal := some ⟨3, 3, 3, 21⟩ }
          | .closing => { closing := some ⟨3, 3, 3, 15⟩ }) := by
  refine ⟨?_, ?_, ?_⟩
  · rcases h with h | h
    · subst h; simp [gradeResponse]
    · subst h; cases available <;> simp [gradeResponse]
  · cases rt <;> decide
  · cases rt <;> decide

/-- Concrete instantiation of `c9_fallback_grading`: an unavailable
service grading a constructive round. -/
theorem c9_fallback_grading_witness :
    (false = false ∨ (none : Option ParsedScores) = none)
    ∧ gradeResponse false none .constructive = generateFallbackGrading .constructive :=
  ⟨Or.inl rfl,
    (c9_fallback_grading .constructive false none (Or.inl rfl)).1⟩

/-! ### `DebateManager` (session store and lifecycle) -/

inductive Side
  | pro
  | con
  deriving DecidableEq

/-- `DebateRound` from the shared types. -/
structure DebateRound where
  id : String
  type : RoundType
  userResponse : Option String := none
  aiResponse : Option String := none
  grading : Option PartialGradingData := none
  timestamp : Nat
  deriving DecidableEq

/-- `DebateSession` from the shared types. -/
structure DebateSession where
  id : String
  topic : String
  refinedTopic : String
  userSide : Side
  currentRound : Nat
  rounds : List DebateRound
  isComplete : Bool
  finalGrading : Option GradingData := none
  createdAt : Nat
  updatedAt : Nat
  deriving DecidableEq

/-- The state of a `DebateManager` instance: the configured word cap
and the `Map<string, DebateSession>` session store. -/
structure ManagerState where
  wordCap : Nat
  sessions : String → Option DebateSession

/-- `sessions.set(id, s)`. -/
def setSession (st : ManagerState) (sid : String) (s : DebateSession) : ManagerState :=
  { st with sessions := fun k => if k = sid then some s else st.sessions k }

/-- Result shape `{ success, message }` common to the manager's
operations. -/
structure OpResult where
  success : Bool
  message : String
  deriving DecidableEq

/-- `DebateManager.createSession`.  The fresh `uuidv4()` is modelled
as the explicit argument `newId`; `new Date().toISOString()` as
`now`. -/
def createSession (st : ManagerState) (newId : String) (topic refinedTopic : String)
    (userSide : Side) (now : Nat) : DebateSession × ManagerState :=
  let session : DebateSession :=
    { id := newId, topic := topic, refinedTopic := refinedTopic, userSide := userSide,
      currentRound := 1, rounds := [], isComplete := false,
      createdAt := now, updatedAt := now }
  (session, setSession st newId session)

/-- `DebateManager.getSession`. -/
def getSession (st : ManagerState) (sid : String) : Option DebateSession :=
  st.sessions sid

/-- `DebateManager.addRound`. -/
def addRound (st : ManagerState) (sid : String) (round : DebateRound) (now : Nat) :
    OpResult × ManagerState :=
  match st.sessions sid with
  | none => (⟨false, "Session not found"⟩, st)
  | some s =>
    (⟨true, "Round added successfully"⟩,
      setSession st sid { s with rounds := s.rounds ++ [round], updatedAt := now })

/-- `DebateManager.validateWordCount`. -/
def validateWordCount (st : ManagerState) (argument : String) : OpResult :=
  let wordCount := getWordCount argument
  if wordCount > st.wordCap then
    ⟨false, "Response exceeds word cap of " ++ toString st.wordCap
      ++ " words. Current: " ++ toString wordCount ++ " words."⟩
  else
    ⟨true, "Response is within the word limit."⟩

/-- `DebateManager.submitUserResponse`: validates the word count
first, then resolves the session, then records the new round.  The
fresh round id is the explicit argument `newRoundId`. -/
def submitUserResponse (st : ManagerState) (sid : String) (response : String)
    (roundType : RoundType) (newRoundId : String) (now : Nat) :
    (OpResult × Option DebateRound) × ManagerState :=
  let validation := validateWordCount st response
  if validation.success then
    match st.sessions sid with
    | none => ((⟨false, "Session not found"⟩, none), st)
    | some s =>
      let round : DebateRound :=
        { id := newRoundId, type := roundType, userResponse := some response,
          timestamp := now }
      ((⟨true, "Response submitted successfully"⟩, some round),
        setSession st sid { s with rounds := s.rounds ++ [round], updatedAt := now })
  else
    ((validation, none), st)

/-- `DebateManager.addAIResponse`: finds the round by id and attaches
the AI response.  (Round ids are fresh uuids, so updating the rounds
whose id matches is the in-place mutation of the found round.) -/
def addAIResponse (st : ManagerState) (sid roundId aiResponse : String) (now : Nat) :
    OpResult × ManagerState :=
  match st.sessions sid with
  | none => (⟨false, "Session not found"⟩, st)
  | some s =>
    match s.rounds.find? (fun r => r.id = roundId) with
    | none => (⟨false, "Round not found"⟩, st)
    | some _ =>
      (⟨true, "AI response added successfully"⟩,
        setSession st sid
          { s with
            rounds := s.rounds.map (fun r =>
              if r.id = roundId then { r with aiResponse := some aiResponse } else r),
            updatedAt := now })

/-- `DebateManager.advanceRound`. -/
def advanceRound (st : ManagerState) (sid : String) (now : Nat) :
    (OpResult × Option Nat) × ManagerState :=
  match st.sessions sid with
  | none => ((⟨false, "Session not found"⟩, none), st)
  | some s =>
    if s.currentRound ≥ 4 then
      ((⟨true, "Debate completed"⟩, some 4),
        setSession st sid { s with isComplete := true, updatedAt := now })
    else
      ((⟨true, "Advanced to round " ++ toString (s.currentRound + 1)⟩,
          some (s.currentRound + 1)),
        setSession st sid { s with currentRound := s.currentRound + 1, updatedAt := now })

/-- `DebateManager.addGrading`. -/
def addGrading (st : ManagerState) (sid roundId : String) (grading : PartialGradingData)
    (now : Nat) : OpResult × ManagerState :=
  match st.sessions sid with
  | none => (⟨false, "Session not found"⟩, st)
  | some s =>
    match s.rounds.find? (fun r => r.id = roundId) with
    | none => (⟨false, "Round not found"⟩, st)
    | some _ =>
      (⟨true, "Grading added successfully"⟩,
        setSession st sid
          { s with
            rounds := s.rounds.map (fun r =>
              if r.id = roundId then { r with grading := some grading } else r),
            updatedAt := now })

/-- `DebateManager.setFinalGrading`. -/
def setFinalGrading (st : ManagerState) (sid : String) (finalGrading : GradingData)
    (now : Nat) : OpResult × ManagerState :=
  match st.sessions sid with
  | none => (⟨false, "Session not found"⟩, st)
  | some s =>
    (⟨true, "Final grading set successfully"⟩,
      setSession st sid
        { s with
          finalGrading := some finalGrading
          isComplete := true
          updatedAt := now })

/-- `DebateManager.getCurrentRoundType`. -/
def getCurrentRoundType (roundNumber : Nat) : RoundType :=
  match roundNumber with
  | 1 => .constructive
  | 2 => .crossEx
  | 3 => .rebuttal
  | 4 => .closing
  | _ => .constructive

/-! ### Claims C4, C6, C10 (manager-level behavior) -/

theorem submitUserResponse_overCap (st : ManagerState) (sid response : String)
    (roundType : RoundType) (newRoundId : String) (now : Nat)
    (h : getWordCount response > st.wordCap) :
    submitUserResponse st sid response roundType newRoundId now
      = ((⟨false, "Response exceeds word cap of " ++ toString st.wordCap
            ++ " words. Current: " ++ toString (getWordCount response) ++ " words."⟩,
          none), st) := by
  have hv : validateWordCount st response
      = ⟨false, "Response exceeds word cap of " ++ toString st.wordCap
          ++ " words. Current: " ++ toString (getWordCount response) ++ " words."⟩ := by
    unfold validateWordCount
    rw [if_pos h]
  unfold submitUserResponse
  rw [hv]
  rfl

theorem submitUserResponse_notFound (st : ManagerState) (sid response : String)
    (roundType : RoundType) (newRoundId : String) (now : Nat)
    (hcap : ¬ (getWordCount response > st.wordCap)) (habs : st.sessions sid = none) :
    submitUserResponse st sid response roundType newRoundId now
      = ((⟨false, "Session not found"⟩, none), st) := by
  have hv : validateWordCount st response = ⟨true, "Response is within the word limit."⟩ := by
    unfold validateWordCount
    rw [if_neg hcap]
  unfold submitUserResponse
  rw [hv, habs]
  rfl

/-- Claim C6: a response over the word cap is rejected by
`submitUserResponse` with a structured failure whose message states
the cap and the actual word count; the state — hence the session's
round list and `currentRound` — is completely unchanged, because the
validation runs before the round object is even created. -/
theorem c6_overCap_rejected (st : ManagerState) (sid response : String)
    (roundType : RoundType) (newRoundId : String) (now : Nat)
    (h : getWordCount response > st.wordCap) :
    submitUserResponse st sid response roundType newRoundId now
      = ((⟨false, "Response exceeds word cap of " ++ toString st.wordCap
            ++ " words. Current: " ++ toString (getWordCount response) ++ " words."⟩,
          none), st) :=
  submitUserResponse_overCap st sid response roundType newRoundId now h

/-- Concrete instantiation of `c6_overCap_rejected`: three words
against a cap of 2. -/
theorem c6_overCap_rejected_witness :
    getWordCount "a b c" > 2
    ∧ submitUserResponse ⟨2, fun _ => none⟩ "s1" "a b c" RoundType.constructive "r1" 0
      = ((⟨false, "Response exceeds word cap of " ++ toString (2 : Nat)
            ++ " words. Current: " ++ toString (getWordCount "a b c") ++ " words."⟩,
          none), ⟨2, fun _ => none⟩) :=
  ⟨by decide,
    c6_overCap_rejected ⟨2, fun _ => none⟩ "s1" "a b c" RoundType.constructive "r1" 0
      (by decide)⟩

/-- Claim C10: `submitUserResponse` validates the word cap before
resolving the session id.  For an id not present in the store, an
over-cap response still yields the word-cap failure (not "Session not
found") with the store untouched, and the not-found failure appears
only for within-cap responses. -/
theorem c10_validation_before_lookup (st : ManagerState) (sid response : String)
    (roundType : RoundType) (newRoundId : String) (now : Nat)
    (habs : st.sessions sid = none) :
    (getWordCount response > st.wordCap →
      submitUserResponse st sid response roundType newRoundId now
        = ((⟨false, "Response exceeds word cap of " ++ toString st.wordCap
              ++ " words. Current: " ++ toString (getWordCount response) ++ " words."⟩,
            none), st))
    ∧ (getWordCount response ≤ st.wordCap →
      submitUserResponse st sid response roundType newRoundId now
        = ((⟨false, "Session not found"⟩, none), st)) :=
  ⟨fun h => submitUserResponse_overCap st sid response roundType newRoundId now h,
   fun h => submitUserResponse_notFound st sid response roundType newRoundId now
     (Nat.not_lt.mpr h) habs⟩

/-- Concrete instantiation of `c10_validation_before_lookup`: an
unknown session id with an over-cap response is rejected by the word
cap, not by session lookup. -/
theorem c10_validation_before_lookup_witness :
    ((fun _ : String => (none : Option DebateSession)) "ghost" = none)
    ∧ submitUserResponse ⟨2, fun _ => none⟩ "ghost" "a b c" RoundType.constructive "r1" 0
      = ((⟨false, "Response exceeds word cap of " ++ toString (2 : Nat)
            ++ " words. Current: " ++ toString (getWordCount "a b c") ++ " words."⟩,
          none), ⟨2, fun _ => none⟩) :=
  ⟨rfl,
    (c10_validation_before_lookup ⟨2, fun _ => none⟩ "ghost" "a b c"
      RoundType.constructive "r1" 0 rfl).1 (by decide)⟩

/-- Claim C4: `advanceRound` increments `currentRound` below 4; at 4
it marks the session complete, holds the round counter, and reports
"Debate completed"; a second call on the completed session changes
nothing but the `updatedAt` timestamp and re-reports completion (same
result, `currentRound` still 4, `isComplete` still `true`, the round
list untouched). -/
theorem c4_advanceRound (st : ManagerState) (sid : String) (s : DebateSession)
    (now now2 : Nat) (h : getSession st sid = some s) :
    (s.currentRound < 4 →
      advanceRound st sid now
        = ((⟨true, "Advanced to round " ++ toString (s.currentRound + 1)⟩,
            some (s.currentRound + 1)),
          setSession st sid { s with currentRound := s.currentRound + 1, updatedAt := now }))
    ∧ (s.currentRound = 4 →
      advanceRound st sid now
        = ((⟨true, "Debate completed"⟩, some 4),
          setSession st sid { s with isComplete := true, updatedAt := now })
      ∧ advanceRound (setSession st sid { s with isComplete := true, updatedAt := now }) sid now2
        = ((⟨true, "Debate completed"⟩, some 4),
          setSession (setSession st sid { s with isComplete := true, updatedAt := now }) sid
            { s with isComplete := true, updatedAt := now2 })) := by
  unfold getSession at h
  constructor
  · intro hlt
    have h4 : ¬ (s.currentRound ≥ 4) := by omega
    unfold advanceRound
    rw [h]
    dsimp only
    rw [if_neg h4]
  · intro heq
    have h4 : s.currentRound ≥ 4 := by omega
    constructor
    · unfold advanceRound
      rw [h]
      dsimp only
      rw [if_pos h4]
    · unfold advanceRound
      rw [show (setSession st sid { s with isComplete := true, updatedAt := now }).sessions sid
          = some { s with isComplete := true, updatedAt := now } by simp [setSession]]
      dsimp only
      rw [if_pos h4]

/-- A concrete debate session sitting at round 4, not yet complete. -/
def sampleSession : DebateSession :=
  { id := "A"
    topic := "t"
    refinedTopic := "t"
    userSide := Side.pro
    currentRound := 4
    rounds := []
    isComplete := false
    createdAt := 0
    updatedAt := 0 }

/-- A store holding only `sampleSession` under key `"A"`. -/
def sampleStore : ManagerState :=
  ⟨180, fun k => if k = "A" then some sampleSession else none⟩

/-- Concrete instantiation of `c4_advanceRound` at a round-4
session. -/
theorem c4_advanceRound_witness :
    (getSession sampleStore "A" = some sampleSession ∧ sampleSession.currentRound = 4)
    ∧ advanceRound sampleStore "A" 5
        = ((⟨true, "Debate completed"⟩, some 4),
          setSession sampleStore "A" { sampleSession with isComplete := true, updatedAt := 5 }) :=
  ⟨⟨by simp [getSession, sampleStore], rfl⟩,
    ((c4_advanceRound sampleStore "A" sampleSession 5 6
      (by simp [getSession, sampleStore])).2 rfl).1⟩

/-! ### The `POST /api/debate/:sessionId/submit` route handler -/

/-- The JSON body the submit route answers with (the fields the claims
are about; `round`/`session` echoes are omitted as pure copies of
state already exposed through `getSession`). -/
structure SubmitResponse where
  status : Nat
  success : Bool
  message : String
  nextRound : Option Nat := none
  isComplete : Bool := false
  finalGrading : Option GradingData := none

/-- The final-grading loop the submit route runs when the debate has
completed: for every round carrying a (non-empty) user response it
asks the external judge (`grade`, abstracting
`geminiService.gradeResponse`, `some` when the call reports success
with a grading) and attaches the per-round grading.  Nothing else is
written. -/
def gradingPass (grade : RoundType → String → Option String → Option PartialGradingData)
    (st : ManagerState) (sid : String) (rounds : List DebateRound) (now : Nat) :
    ManagerState :=
  rounds.foldl (fun acc r =>
    match r.userResponse with
    | some ur =>
      if ur = "" then acc
      else
        match grade r.type ur r.aiResponse with
        | some g => (addGrading acc sid r.id g now).2
        | none => acc
    | none => acc) st

/-- `POST /api/debate/:sessionId/submit` from the unified server:
validates the body, rejects completed sessions, records the user
round, attaches an AI counter-response except in the closing round
(`ai` abstracts the external generation, `some` when it succeeds),
advances the round, and on completion runs the final grading pass and
reads the session's `finalGrading` for the response. -/
def routeSubmit (ai : Option String)
    (grade : RoundType → String → Option String → Option PartialGradingData)
    (st : ManagerState) (sid response newRoundId : String) (now : Nat) :
    SubmitResponse × ManagerState :=
  if response = "" then
    (⟨400, false, "Response is required and must be a string", none, false, none⟩, st)
  else
    match getSession st sid with
    | none => (⟨404, false, "Debate session not found", none, false, none⟩, st)
    | some session =>
      if session.isComplete then
        (⟨400, false, "Debate session is already complete", none, false, none⟩, st)
      else
        let currentRoundType := getCurrentRoundType session.currentRound
        let submitRes := submitUserResponse st sid response currentRoundType newRoundId now
        let userResult := submitRes.1.1
        let userRound := submitRes.1.2
        let st1 := submitRes.2
        if userResult.success then
          let st2 :=
            if currentRoundType ≠ RoundType.closing then
              match ai, userRound with
              | some arg, some r => (addAIResponse st1 sid r.id arg now).2
              | _, _ => st1
            else st1
          let advRes := advanceRound st2 sid now
          let st3 := advRes.2
          let updatedSession := getSession st3 sid
          let st4 :=
            match updatedSession with
            | some u => if u.isComplete then gradingPass grade st3 sid u.rounds now else st3
            | none => st3
          let finalG :=
            match updatedSession with
            | some u =>
              if u.isComplete then
                match getSession st4 sid with
                | some fs => fs.finalGrading
                | none => none
              else none
            | none => none
          (⟨200, true, "Response submitted successfully", advRes.1.2,
            (match updatedSession with | some u => u.isComplete | none => false),
            finalG⟩, st4)
        else
          (⟨400, userResult.success, userResult.message, none, false, none⟩, st1)

/-! ### Claim C3, counterexample at the `DebateManager` level -/

/-- Claim C3 quantifies over every sequence of `DebateManager`
operations, but the manager itself never checks `currentRound` or
`isComplete` before appending: two direct `submitUserResponse` calls
on a fresh session leave `rounds.length = 2 > 1 = currentRound`.
(The guard lives only in the HTTP route; see the amended claim.) -/
theorem c3_counterexample :
    ((submitUserResponse
        (submitUserResponse
          (createSession ⟨180, fun _ => none⟩ "A" "topic" "topic" Side.pro 0).2
          "A" "hello" RoundType.constructive "r1" 1).2
        "A" "again" RoundType.constructive "r2" 2).2.sessions "A").map
      (fun s => (s.rounds.length, s.currentRound)) = some (2, 1)
    ∧ ¬ (2 ≤ 1) := by
  constructor
  · rfl
  · decide

/-! ### Preservation lemmas for the route's mutation steps -/

/-- The session facts the invariants track: round count, current
round, completion flag and final grading. -/
def skel (s : DebateSession) : Nat × Nat × Bool × Option GradingData :=
  (s.rounds.length, s.currentRound, s.isComplete, s.finalGrading)

theorem setSession_self (st : ManagerState) (sid : String) (s : DebateSession) :
    (setSession st sid s).sessions sid = some s := by
  simp [setSession]

theorem setSession_other (st : ManagerState) (sid : String) (s : DebateSession)
    (k : String) (hk : k ≠ sid) : (setSession st sid s).sessions k = st.sessions k := by
  simp [setSession, hk]

theorem addGrading_skel (st : ManagerState) (sid rid : String) (g : PartialGradingData)
    (now : Nat) (k : String) :
    (((addGrading st sid rid g now).2.sessions k).map skel) = (st.sessions k).map skel := by
  unfold addGrading
  cases hs : st.sessions sid with
  | none => rfl
  | some s =>
    dsimp only
    cases hf : s.rounds.find? (fun r => r.id = rid) with
    | none => rfl
    | some r =>
      dsimp only
      by_cases hk : k = sid
      · subst hk
        rw [setSession_self, hs]
        simp [skel]
      · rw [setSession_other _ _ _ _ hk]

theorem addAIResponse_skel (st : ManagerState) (sid rid a : String)
    (now : Nat) (k : String) :
    (((addAIResponse st sid rid a now).2.sessions k).map skel) = (st.sessions k).map skel := by
  unfold addAIResponse
  cases hs : st.sessions sid with
  | none => rfl
  | some s =>
    dsimp only
    cases hf : s.rounds.find? (fun r => r.id = rid) with
    | none => rfl
    | some r =>
      dsimp only
      by_cases hk : k = sid
      · subst hk
        rw [setSession_self, hs]
        simp [skel]
      · rw [setSession_other _ _ _ _ hk]

theorem gradingPassStep_skel (grade : RoundType → String → Option String → Option PartialGradingData)
    (sid : String) (now : Nat) (k : String) (r : DebateRound) (st : ManagerState) :
    (((match r.userResponse with
        | some ur =>
          if ur = "" then st
          else
            match grade r.type ur r.aiResponse with
            | some g => (addGrading st sid r.id g now).2
            | none => st
        | none => st : ManagerState)).sessions k).map skel = (st.sessions k).map skel := by
  cases hur : r.userResponse with
  | none => rfl
  | some ur =>
    dsimp only
    by_cases hemp : ur = ""
    · rw [if_pos hemp]
    · rw [if_neg hemp]
      cases hg : grade r.type ur r.aiResponse with
      | none => rfl
      | some g => exact addGrading_skel st sid r.id g now k

theorem gradingPass_skel (grade : RoundType → String → Option String → Option PartialGradingData)
    (sid : String) (now : Nat) (k : String) :
    ∀ (rounds : List DebateRound) (st : ManagerState),
      ((gradingPass grade st sid rounds now).sessions k).map skel
        = (st.sessions k).map skel := by
  intro rounds
  induction rounds with
  | nil => intro st; rfl
  | cons r rest ih =>
    intro st
    unfold gradingPass
    rw [List.foldl_cons]
    refine Eq.trans (ih _) (gradingPassStep_skel grade sid now k r st)

theorem submitUserResponse_found (st : ManagerState) (sid response : String)
    (roundType : RoundType) (newRoundId : String) (now : Nat) (s : DebateSession)
    (hcap : ¬ (getWordCount response > st.wordCap)) (h : st.sessions sid = some s) :
    submitUserResponse st sid response roundType newRoundId now
      = ((⟨true, "Response submitted successfully"⟩,
          some ⟨newRoundId, roundType, some response, none, none, now⟩),
        setSession st sid
          { s with
            rounds := s.rounds ++ [⟨newRoundId, roundType, some response, none, none, now⟩]
            updatedAt := now }) := by
  have hv : validateWordCount st response = ⟨true, "Response is within the word limit."⟩ := by
    unfold validateWordCount
    rw [if_neg hcap]
  unfold submitUserResponse
  rw [hv]
  dsimp only
  rw [h]
  rfl

theorem advanceRound_ge4 (st : ManagerState) (sid : String) (now : Nat) (s : DebateSession)
    (h : st.sessions sid = some s) (h4 : s.currentRound ≥ 4) :
    advanceRound st sid now
      = ((⟨true, "Debate completed"⟩, some 4),
        setSession st sid { s with isComplete := true, updatedAt := now }) := by
  unfold advanceRound
  rw [h]
  dsimp only
  rw [if_pos h4]

/-! ### Claim C1 -/

/-- The completing submission through the route: helper equation.
Under the main-path hypotheses (non-empty in-cap response, session at
round 4 and not complete), the route records the closing round,
advances (marking the session complete), runs the grading pass and
answers with whatever `finalGrading` the session then carries. -/
theorem routeSubmit_completes (ai : Option String)
    (grade : RoundType → String → Option String → Option PartialGradingData)
    (st : ManagerState) (sid response newRoundId : String) (now : Nat) (s : DebateSession)
    (h : st.sessions sid = some s) (hne : response ≠ "") (hnc : s.isComplete = false)
    (hcur : s.currentRound = 4) (hcap : ¬ (getWordCount response > st.wordCap)) :
    routeSubmit ai grade st sid response newRoundId now
      = (let round : DebateRound := ⟨newRoundId, RoundType.closing, some response, none, none, now⟩
         let s1 : DebateSession := { s with rounds := s.rounds ++ [round], updatedAt := now }
         let s2 : DebateSession := { s1 with isComplete := true, updatedAt := now }
         let st3 := setSession (setSession st sid s1) sid s2
         let st4 := gradingPass grade st3 sid s2.rounds now
         (⟨200, true, "Response submitted successfully", some 4, true,
            match st4.sessions sid with
            | some fs => fs.finalGrading
            | none => none⟩, st4)) := by
  unfold routeSubmit
  rw [if_neg hne]
  unfold getSession
  rw [h]
  dsimp only
  rw [hnc]
  rw [hcur]
  rw [show getCurrentRoundType 4 = RoundType.closing from rfl]
  rw [submitUserResponse_found st sid response RoundType.closing newRoundId now s hcap h]
  dsimp only
  rw [if_neg (show ¬(RoundType.closing ≠ RoundType.closing) by simp)]
  rw [advanceRound_ge4 _ sid now _ (setSession_self _ _ _) (by simp [hcur])]
  rw [setSession_self]
  simp [hcur, hnc]

/-- Claim C1 fails on the code: the final grading pass that runs when
the debate completes only attaches per-round gradings; nothing ever
computes the summed `finalScore` or calls `setFinalGrading`, so after
the completing submission the session still carries no `finalGrading`
(and the route answers `finalGrading: null`), contradicting the
intent documented by `setFinalGrading`, the route's read of
`session.finalGrading`, and the client's score display.  This theorem
evaluates the code on the failing scenario: a session at round 4,
not yet complete, with no `finalGrading`, receiving a valid closing
submission. -/
theorem c1_no_final_grading (ai : Option String)
    (grade : RoundType → String → Option String → Option PartialGradingData)
    (st : ManagerState) (sid response newRoundId : String) (now : Nat) (s : DebateSession)
    (h : st.sessions sid = some s) (hne : response ≠ "") (hnc : s.isComplete = false)
    (hcur : s.currentRound = 4) (hfg : s.finalGrading = none)
    (hcap : getWordCount response ≤ st.wordCap) :
    (routeSubmit ai grade st sid response newRoundId now).1.finalGrading = none
    ∧ (routeSubmit ai grade st sid response newRoundId now).1.isComplete = true
    ∧ (((routeSubmit ai grade st sid response newRoundId now).2.sessions sid).map
        (fun t => (t.isComplete, t.finalGrading))) = some (true, none) := by
  have hcap' : ¬ (getWordCount response > st.wordCap) := Nat.not_lt.mpr hcap
  rw [routeSubmit_completes ai grade st sid response newRoundId now s h hne hnc hcur hcap']
  dsimp only
  have hmap := gradingPass_skel grade sid now sid
    ({ s with
        rounds := s.rounds ++ [⟨newRoundId, RoundType.closing, some response, none, none, now⟩]
        isComplete := true
        updatedAt := now } : DebateSession).rounds
    (setSession (setSession st sid
      { s with
        rounds := s.rounds ++ [⟨newRoundId, RoundType.closing, some response, none, none, now⟩]
        updatedAt := now }) sid
      { s with
        rounds := s.rounds ++ [⟨newRoundId, RoundType.closing, some response, none, none, now⟩]
        isComplete := true
        updatedAt := now })
  rw [setSession_self] at hmap
  cases hfs : (gradingPass grade
      (setSession (setSession st sid
        { s with
          rounds := s.rounds ++ [⟨newRoundId, RoundType.closing, some response, none, none, now⟩]
          updatedAt := now }) sid
        { s with
          rounds := s.rounds ++ [⟨newRoundId, RoundType.closing, some response, none, none, now⟩]
          isComplete := true
          updatedAt := now })
      sid
      ({ s with
          rounds := s.rounds ++ [⟨newRoundId, RoundType.closing, some response, none, none, now⟩]
          isComplete := true
          updatedAt := now } : DebateSession).rounds
      now).sessions sid with
  | none =>
    rw [hfs] at hmap
    exact absurd hmap (by simp)
  | some fs =>
    rw [hfs] at hmap
    simp [skel] at hmap
    have hcomp : fs.isComplete = true := hmap.2.2.1
    have hfg2 : fs.finalGrading = none := by rw [hmap.2.2.2, hfg]
    refine ⟨by simp [hfs, hfg2], rfl, by simp [hfs, hcomp, hfg2]⟩

/-- A concrete three-round transcript round. -/
def c1Round (i : String) (ty : RoundType) : DebateRound :=
  { id := i
    type := ty
    userResponse := some "text"
    aiResponse := some "reply"
    timestamp := 0 }

/-- A concrete session about to receive its closing submission. -/
def c1Session : DebateSession :=
  { id := "A"
    topic := "t"
    refinedTopic := "t"
    userSide := Side.pro
    currentRound := 4
    rounds := [c1Round "r1" RoundType.constructive, c1Round "r2" RoundType.crossEx,
      c1Round "r3" RoundType.rebuttal]
    isComplete := false
    createdAt := 0
    updatedAt := 0 }

/-- Concrete instantiation of `c1_no_final_grading`: the completing
closing-round submission (with the judge returning fallback gradings
for every round) still leaves the answered `finalGrading` empty. -/
theorem c1_no_final_grading_witness :
    ((fun k => if k = "A" then some c1Session else none) "A" = some c1Session
      ∧ "done" ≠ "" ∧ c1Session.isComplete = false ∧ c1Session.currentRound = 4
      ∧ c1Session.finalGrading = none ∧ getWordCount "done" ≤ (180 : Nat))
    ∧ (routeSubmit none (fun ty _ _ => (generateFallbackGrading ty).grading)
        ⟨180, fun k => if k = "A" then some c1Session else none⟩ "A" "done" "r4" 9).1.finalGrading
      = none :=
  ⟨⟨rfl, by decide, rfl, rfl, rfl, by decide⟩,
    (c1_no_final_grading none (fun ty _ _ => (generateFallbackGrading ty).grading)
      ⟨180, fun k => if k = "A" then some c1Session else none⟩ "A" "done" "r4" 9 c1Session
      rfl (by decide) rfl rfl rfl (by decide)).1⟩

/-! ### Branch equations for `routeSubmit` -/

theorem routeSubmit_noop_empty (ai : Option String)
    (grade : RoundType → String → Option String → Option PartialGradingData)
    (st : ManagerState) (sid newRoundId : String) (now : Nat) :
    (routeSubmit ai grade st sid "" newRoundId now).2 = st := by
  unfold routeSubmit
  rw [if_pos rfl]

theorem routeSubmit_noop_absent (ai : Option String)
    (grade : RoundType → String → Option String → Option PartialGradingData)
    (st : ManagerState) (sid response newRoundId : String) (now : Nat)
    (hne : response ≠ "") (habs : st.sessions sid = none) :
    (routeSubmit ai grade st sid response newRoundId now).2 = st := by
  unfold routeSubmit
  rw [if_neg hne]
  unfold getSession
  rw [habs]

theorem routeSubmit_noop_complete (ai : Option String)
    (grade : RoundType → String → Option String → Option PartialGradingData)
    (st : ManagerState) (sid response newRoundId : String) (now : Nat) (s : DebateSession)
    (h : st.sessions sid = some s) (hc : s.isComplete = true) :
    (routeSubmit ai grade st sid response newRoundId now).2 = st := by
  by_cases hne : response = ""
  · rw [hne]
    exact routeSubmit_noop_empty ai grade st sid newRoundId now
  · unfold routeSubmit
    rw [if_neg hne]
    unfold getSession
    rw [h]
    dsimp only
    rw [hc]
    rfl

theorem routeSubmit_noop_overcap (ai : Option String)
    (grade : RoundType → String → Option String → Option PartialGradingData)
    (st : ManagerState) (sid response newRoundId : String) (now : Nat) (s : DebateSession)
    (h : st.sessions sid = some s) (hc : s.isComplete = false)
    (hcap : getWordCount response > st.wordCap) (hne : response ≠ "") :
    (routeSubmit ai grade st sid response newRoundId now).2 = st := by
  unfold routeSubmit
  rw [if_neg hne]
  unfold getSession
  rw [h]
  dsimp only
  rw [hc]
  rw [submitUserResponse_overCap st sid response (getCurrentRoundType s.currentRound)
    newRoundId now hcap]
  dsimp only
  rw [if_neg (show ¬(false = true) by decide)]
  rw [if_neg (show ¬(false = true) by decide)]

theorem advanceRound_lt4 (st : ManagerState) (sid : String) (now : Nat) (s : DebateSession)
    (h : st.sessions sid = some s) (h4 : ¬ (s.currentRound ≥ 4)) :
    advanceRound st sid now
      = ((⟨true, "Advanced to round " ++ toString (s.currentRound + 1)⟩,
          some (s.currentRound + 1)),
        setSession st sid { s with currentRound := s.currentRound + 1, updatedAt := now }) := by
  unfold advanceRound
  rw [h]
  dsimp only
  rw [if_neg h4]

theorem getCurrentRoundType_lt4 (n : Nat) (h : n < 4) :
    getCurrentRoundType n ≠ RoundType.closing := by
  interval_cases n <;> decide

/-- Skeleton effect of a completing submission (session at round 4):
the submitted round is appended, the session flips to complete, and
every other session keeps its skeleton. -/
theorem routeSubmit_completes_skel (ai : Option String)
    (grade : RoundType → String → Option String → Option PartialGradingData)
    (st : ManagerState) (sid response newRoundId : String) (now : Nat) (s : DebateSession)
    (h : st.sessions sid = some s) (hne : response ≠ "") (hnc : s.isComplete = false)
    (hcur : s.currentRound = 4) (hcap : ¬ (getWordCount response > st.wordCap)) :
    ∀ k, (((routeSubmit ai grade st sid response newRoundId now).2.sessions k).map skel)
      = if k = sid
        then some (s.rounds.length + 1, s.currentRound, true, s.finalGrading)
        else (st.sessions k).map skel := by
  intro k
  rw [routeSubmit_completes ai grade st sid response newRoundId now s h hne hnc hcur hcap]
  dsimp only
  rw [gradingPass_skel]
  by_cases hk : k = sid
  · subst hk
    rw [if_pos rfl, setSession_self]
    simp [skel]
  · rw [if_neg hk, setSession_other _ _ _ _ hk, setSession_other _ _ _ _ hk]

/-- Skeleton effect of a non-final submission (session below round
4): the round is appended, `currentRound` increments, the session
stays incomplete, and every other session keeps its skeleton. -/
theorem routeSubmit_advances_skel (ai : Option String)
    (grade : RoundType → String → Option String → Option PartialGradingData)
    (st : ManagerState) (sid response newRoundId : String) (now : Nat) (s : DebateSession)
    (h : st.sessions sid = some s) (hne : response ≠ "") (hnc : s.isComplete = false)
    (hlt : s.currentRound < 4) (hcap : ¬ (getWordCount response > st.wordCap)) :
    ∀ k, (((routeSubmit ai grade st sid response newRoundId now).2.sessions k).map skel)
      = if k = sid
        then some (s.rounds.length + 1, s.currentRound + 1, false, s.finalGrading)
        else (st.sessions k).map skel := by
  intro k
  unfold routeSubmit
  rw [if_neg hne]
  unfold getSession
  rw [h]
  dsimp only
  rw [hnc]
  rw [submitUserResponse_found st sid response (getCurrentRoundType s.currentRound)
    newRoundId now s hcap h]
  dsimp only
  rw [if_neg (show ¬(false = true) by decide)]
  rw [if_pos (getCurrentRoundType_lt4 s.currentRound hlt)]
  cases ai with
  | none =>
    dsimp only
    rw [advanceRound_lt4 _ sid now _ (setSession_self _ _ _) (by simpa using hlt)]
    dsimp only
    rw [setSession_self]
    dsimp only
    rw [hnc]
    simp only [if_neg (show ¬(false = true) by decide), if_true]
    by_cases hk : k = sid
    · subst hk
      rw [setSession_self]
      simp [skel]
    · rw [setSession_other _ _ _ _ hk, setSession_other _ _ _ _ hk, if_neg hk]
  | some arg =>
    dsimp only
    have hsk := addAIResponse_skel
      (setSession st sid
        { s with
          rounds := s.rounds ++ [⟨newRoundId, getCurrentRoundType s.currentRound,
            some response, none, none, now⟩]
          updatedAt := now })
      sid newRoundId arg now sid
    rw [setSession_self] at hsk
    cases hu2 : (addAIResponse
        (setSession st sid
          { s with
            rounds := s.rounds ++ [⟨newRoundId, getCurrentRoundType s.currentRound,
              some response, none, none, now⟩]
            updatedAt := now })
        sid newRoundId arg now).2.sessions sid with
    | none =>
      rw [hu2] at hsk
      exact absurd hsk (by simp)
    | some u2 =>
      rw [hu2] at hsk
      simp [skel] at hsk
      obtain ⟨hlen2, hcur2, hcomp2, hfg2⟩ := hsk
      rw [advanceRound_lt4 _ sid now u2 hu2 (by omega)]
      dsimp only
      rw [setSession_self]
      dsimp only
      rw [hcomp2, hnc]
      simp only [if_neg (show ¬(false = true) by decide), if_true]
      by_cases hk : k = sid
      · subst hk
        rw [setSession_self]
        simp [skel, hlen2, hcur2, hcomp2, hfg2, hnc]
      · rw [setSession_other _ _ _ _ hk, if_neg hk]
        have hsk2 := addAIResponse_skel
          (setSession st sid
            { s with
              rounds := s.rounds ++ [⟨newRoundId, getCurrentRoundType s.currentRound,
                some response, none, none, now⟩]
              updatedAt := now })
          sid newRoundId arg now k
        rw [setSession_other _ _ _ _ hk] at hsk2
        rw [hnc] at hsk2
        exact hsk2

/-! ### Route-level operation sequences -/

/-- The HTTP operations that mutate the session store: session
creation and round submission.  (`GET` endpoints only read.) -/
inductive RouteOp where
  | create (newId topic refinedTopic : String) (side : Side) (now : Nat)
  | submit (ai : Option String)
      (grade : RoundType → String → Option String → Option PartialGradingData)
      (sid response newRoundId : String) (now : Nat)

def routeStep (st : ManagerState) : RouteOp → ManagerState
  | .create newId topic refined side now => (createSession st newId topic refined side now).2
  | .submit ai grade sid response newRoundId now =>
      (routeSubmit ai grade st sid response newRoundId now).2

def routeApply : ManagerState → List RouteOp → ManagerState
  | st, [] => st
  | st, op :: ops => routeApply (routeStep st op) ops

/-- Freshness of the generated uuids: every `create` in the sequence
uses an id not present when it runs. -/
def routeFresh : ManagerState → List RouteOp → Prop
  | _, [] => True
  | st, op :: ops =>
    (match op with
      | .create newId _ _ _ _ => st.sessions newId = none
      | _ => True) ∧ routeFresh (routeStep st op) ops

/-- The per-session invariant of the amended claim C3, phrased on the
session skeleton. -/
def InvProp : Nat × Nat × Bool × Option GradingData → Prop
  | (len, cur, complete, _) => len ≤ cur ∧ cur ≤ 4 ∧ (complete = false → len < cur)

def InvC3 (st : ManagerState) : Prop :=
  ∀ sid s, st.sessions sid = some s → InvProp (skel s)

/-- Case analysis of a submit request's effect on session skeletons,
assuming the store satisfies the invariant: either a session keeps its
skeleton, or it is the submitted-to (incomplete) session, which gains
one round and either completes (at round 4) or advances. -/
theorem routeSubmit_skel_cases (ai : Option String)
    (grade : RoundType → String → Option String → Option PartialGradingData)
    (st : ManagerState) (sid response newRoundId : String) (now : Nat)
    (hInv : InvC3 st) (k : String) :
    (((routeSubmit ai grade st sid response newRoundId now).2.sessions k).map skel
      = (st.sessions k).map skel)
    ∨ (k = sid ∧ ∃ s, st.sessions sid = some s ∧ s.isComplete = false
        ∧ ((routeSubmit ai grade st sid response newRoundId now).2.sessions k).map skel
          = some (if s.currentRound ≥ 4
              then (s.rounds.length + 1, s.currentRound, true, s.finalGrading)
              else (s.rounds.length + 1, s.currentRound + 1, false, s.finalGrading))) := by
  by_cases hne : response = ""
  · left
    subst hne
    rw [routeSubmit_noop_empty]
  cases hs : st.sessions sid with
  | none =>
    left
    rw [routeSubmit_noop_absent ai grade st sid response newRoundId now hne hs]
  | some s =>
    cases hcb : s.isComplete with
    | true =>
      left
      rw [routeSubmit_noop_complete ai grade st sid response newRoundId now s hs hcb]
    | false =>
      by_cases hcap : getWordCount response > st.wordCap
      · left
        rw [routeSubmit_noop_overcap ai grade st sid response newRoundId now s hs hcb hcap hne]
      · by_cases h4 : s.currentRound ≥ 4
        · have hcur : s.currentRound = 4 :=
            Nat.le_antisymm (hInv sid s hs).2.1 h4
          by_cases hk : k = sid
          · right
            refine ⟨hk, s, rfl, hcb, ?_⟩
            rw [routeSubmit_completes_skel ai grade st sid response newRoundId now s
              hs hne hcb hcur hcap k]
            rw [if_pos hk, if_pos h4]
          · left
            rw [routeSubmit_completes_skel ai grade st sid response newRoundId now s
              hs hne hcb hcur hcap k]
            rw [if_neg hk]
        · by_cases hk : k = sid
          · right
            refine ⟨hk, s, rfl, hcb, ?_⟩
            rw [routeSubmit_advances_skel ai grade st sid response newRoundId now s
              hs hne hcb (Nat.lt_of_not_le h4) hcap k]
            rw [if_pos hk, if_neg h4]
          · left
            rw [routeSubmit_advances_skel ai grade st sid response newRoundId now s
              hs hne hcb (Nat.lt_of_not_le h4) hcap k]
            rw [if_neg hk]

theorem invProp_of_skelEq {st' st : ManagerState} (k : String)
    (hm : (st'.sessions k).map skel = (st.sessions k).map skel) (hInv : InvC3 st) :
    ∀ s', st'.sessions k = some s' → InvProp (skel s') := by
  intro s' hs'
  rw [hs'] at hm
  cases ht : st.sessions k with
  | none => rw [ht] at hm; exact absurd hm (by simp)
  | some t =>
    rw [ht] at hm
    have heq : skel s' = skel t := by simpa using hm
    rw [heq]
    exact hInv k t ht

theorem routeStep_inv (st : ManagerState) (op : RouteOp) (hInv : InvC3 st) :
    InvC3 (routeStep st op) := by
  cases op with
  | create newId topic refined side now =>
    intro k s' hs'
    unfold routeStep createSession at hs'
    dsimp only at hs'
    by_cases hk : k = newId
    · subst hk
      rw [setSession_self] at hs'
      cases hs'
      simp [InvProp, skel]
    · rw [setSession_other _ _ _ _ hk] at hs'
      exact hInv k s' hs'
  | submit ai grade sid response newRoundId now =>
    intro k s' hs'
    have hs2 : (routeSubmit ai grade st sid response newRoundId now).2.sessions k = some s' := hs'
    rcases routeSubmit_skel_cases ai grade st sid response newRoundId now hInv k with
      hm | ⟨hk, s, hs, hcb, hm⟩
    · exact invProp_of_skelEq k hm hInv s' hs2
    · rw [hs2] at hm
      have heq := Option.some_inj.mp hm
      rw [heq]
      have h0 := hInv sid s hs
      have hlt := (h0.2.2) hcb
      by_cases h4 : s.currentRound ≥ 4
      · rw [if_pos h4]
        refine ⟨by omega, by exact h0.2.1, by intro hcontra; exact absurd hcontra (by simp)⟩
      · rw [if_neg h4]
        exact ⟨by omega, by omega, by intro _; omega⟩

theorem routeStep_completed (st : ManagerState) (op : RouteOp)
    (hF1 : match op with
      | .create newId _ _ _ _ => st.sessions newId = none
      | _ => True)
    (hInv : InvC3 st) (sid : String) (s : DebateSession)
    (h : st.sessions sid = some s) (hc : s.isComplete = true) :
    ((routeStep st op).sessions sid).map skel = some (skel s) := by
  cases op with
  | create newId topic refined side now =>
    have hk : sid ≠ newId := by
      intro hcontra
      rw [hcontra, hF1] at h
      cases h
    unfold routeStep createSession
    dsimp only
    rw [setSession_other _ _ _ _ hk, h]
    rfl
  | submit ai grade sid' response newRoundId now =>
    show ((routeSubmit ai grade st sid' response newRoundId now).2.sessions sid).map skel
      = some (skel s)
    rcases routeSubmit_skel_cases ai grade st sid' response newRoundId now hInv sid with
      hm | ⟨hk, s0, hs0, hcb, hm⟩
    · rw [hm, h]
      rfl
    · subst hk
      rw [h] at hs0
      cases hs0
      rw [hc] at hcb
      cases hcb

/-- Claim C3, amended: the invariant does not hold for arbitrary
`DebateManager` call sequences (see the counterexample), but it does
hold at the HTTP level, where every round is appended through the
submit route: starting from any store satisfying it (e.g. the empty
store), and with fresh uuids for session creation, every sequence of
route operations preserves `rounds.length ≤ currentRound` (with
`currentRound ≤ 4`), and a session that is complete keeps its
skeleton — in particular no further round is ever appended to it and
`currentRound` stays put. -/
theorem c3_route_invariant (ops : List RouteOp) :
    ∀ st : ManagerState, InvC3 st → routeFresh st ops →
      InvC3 (routeApply st ops)
      ∧ ∀ sid s, st.sessions sid = some s → s.isComplete = true →
          ((routeApply st ops).sessions sid).map skel = some (skel s) := by
  induction ops with
  | nil =>
    intro st hInv _
    refine ⟨hInv, ?_⟩
    intro sid s h _
    rw [show routeApply st [] = st from rfl, h]
    rfl
  | cons op rest ih =>
    intro st hInv hF
    obtain ⟨hF1, hFr⟩ := hF
    have hInv' := routeStep_inv st op hInv
    obtain ⟨ihInv, ihComp⟩ := ih (routeStep st op) hInv' hFr
    refine ⟨ihInv, ?_⟩
    intro sid s h hc
    have hstep := routeStep_completed st op hF1 hInv sid s h hc
    cases h1 : (routeStep st op).sessions sid with
    | none => rw [h1] at hstep; exact absurd hstep (by simp)
    | some s1 =>
      rw [h1] at hstep
      have hskel : skel s1 = skel s := by simpa using hstep
      have hc1 : s1.isComplete = true := by
        have := congrArg (fun p => p.2.2.1) hskel
        simpa [skel, hc] using this
      have hrest := ihComp sid s1 h1 hc1
      rw [show routeApply st (op :: rest) = routeApply (routeStep st op) rest from rfl]
      rw [hrest, hskel]

/-- Concrete instantiation of `c3_route_invariant`: the empty store,
one creation and one submission. -/
theorem c3_route_invariant_witness :
    (InvC3 ⟨180, fun _ => none⟩
      ∧ routeFresh ⟨180, fun _ => none⟩
          [RouteOp.create "A" "t" "t" Side.pro 0,
           RouteOp.submit none (fun _ _ _ => none) "A" "hi" "r1" 1])
    ∧ InvC3 (routeApply ⟨180, fun _ => none⟩
        [RouteOp.create "A" "t" "t" Side.pro 0,
         RouteOp.submit none (fun _ _ _ => none) "A" "hi" "r1" 1]) :=
  have hInv : InvC3 ⟨180, fun _ => none⟩ := by
    intro sid s h
    cases h
  have hF : routeFresh ⟨180, fun _ => none⟩
      [RouteOp.create "A" "t" "t" Side.pro 0,
       RouteOp.submit none (fun _ _ _ => none) "A" "hi" "r1" 1] :=
    ⟨rfl, trivial, trivial⟩
  ⟨⟨hInv, hF⟩,
    (c3_route_invariant
      [RouteOp.create "A" "t" "t" Side.pro 0,
       RouteOp.submit none (fun _ _ _ => none) "A" "hi" "r1" 1]
      ⟨180, fun _ => none⟩ hInv hF).1⟩

/-! ### `DebateManager` operation sequences (claim C5) -/

/-- The mutating `DebateManager` operations. -/
inductive MOp where
  | create (newId topic refinedTopic : String) (side : Side) (now : Nat)
  | addRound (sid : String) (round : DebateRound) (now : Nat)
  | submitUser (sid response : String) (ty : RoundType) (newRoundId : String) (now : Nat)
  | addAI (sid roundId aiText : String) (now : Nat)
  | advance (sid : String) (now : Nat)
  | addGrading (sid roundId : String) (g : PartialGradingData) (now : Nat)
  | setFinal (sid : String) (g : GradingData) (now : Nat)

def mStep (st : ManagerState) : MOp → ManagerState
  | .create newId topic refined side now => (createSession st newId topic refined side now).2
  | .addRound sid round now => (addRound st sid round now).2
  | .submitUser sid response ty newRoundId now =>
      (submitUserResponse st sid response ty newRoundId now).2
  | .addAI sid roundId aiText now => (addAIResponse st sid roundId aiText now).2
  | .advance sid now => (advanceRound st sid now).2
  | .addGrading sid roundId g now => (addGrading st sid roundId g now).2
  | .setFinal sid g now => (setFinalGrading st sid g now).2

def mApply : ManagerState → List MOp → ManagerState
  | st, [] => st
  | st, op :: ops => mApply (mStep st op) ops

/-- Freshness of the generated uuids for `createSession` calls in a
sequence. -/
def mFresh : ManagerState → List MOp → Prop
  | _, [] => True
  | st, op :: ops =>
    (match op with
      | .create newId _ _ _ _ => st.sessions newId = none
      | _ => True) ∧ mFresh (mStep st op) ops

/-- Sessions enter the store only through `createSession`, which sets
`currentRound := 1`; this is the resulting range invariant. -/
def WFState (st : ManagerState) : Prop :=
  ∀ k s, st.sessions k = some s → 1 ≤ s.currentRound ∧ s.currentRound ≤ 4

theorem mStep_mono (st : ManagerState) (op : MOp) (hWF : WFState st)
    (hF1 : match op with
      | .create newId _ _ _ _ => st.sessions newId = none
      | _ => True) :
    WFState (mStep st op)
    ∧ ∀ k s, st.sessions k = some s →
        ∃ s', (mStep st op).sessions k = some s'
          ∧ s.currentRound ≤ s'.currentRound
          ∧ (s.isComplete = true → s'.isComplete = true) := by
  cases op with
  | create newId topic refined side now =>
    constructor
    · intro k s' hs'
      unfold mStep createSession at hs'
      dsimp only at hs'
      by_cases hk : k = newId
      · subst hk
        rw [setSession_self] at hs'
        cases hs'
        exact ⟨by simp, by simp⟩
      · rw [setSession_other _ _ _ _ hk] at hs'
        exact hWF k s' hs'
    · intro k s hs
      have hk : k ≠ newId := by
        intro hcontra
        rw [hcontra, hF1] at hs
        cases hs
      refine ⟨s, ?_, Nat.le_refl _, fun hc => hc⟩
      unfold mStep createSession
      dsimp only
      rw [setSession_other _ _ _ _ hk, hs]
  | addRound sid round now =>
    unfold mStep addRound
    dsimp only
    cases hs : st.sessions sid with
    | none =>
      exact ⟨hWF, fun k s h => ⟨s, h, Nat.le_refl _, fun hc => hc⟩⟩
    | some t =>
      dsimp only
      constructor
      · intro k s' hs'
        by_cases hk : k = sid
        · subst hk
          rw [setSession_self] at hs'
          cases hs'
          exact hWF _ t hs
        · rw [setSession_other _ _ _ _ hk] at hs'
          exact hWF k s' hs'
      · intro k s h
        by_cases hk : k = sid
        · subst hk
          rw [hs] at h
          cases h
          exact ⟨_, setSession_self _ _ _, Nat.le_refl _, fun hc => hc⟩
        · exact ⟨s, by rw [setSession_other _ _ _ _ hk]; exact h, Nat.le_refl _, fun hc => hc⟩
  | submitUser sid response ty newRoundId now =>
    by_cases hcap : getWordCount response > st.wordCap
    · have := submitUserResponse_overCap st sid response ty newRoundId now hcap
      unfold mStep
      dsimp only
      rw [this]
      exact ⟨hWF, fun k s h => ⟨s, h, Nat.le_refl _, fun hc => hc⟩⟩
    · cases hs : st.sessions sid with
      | none =>
        have := submitUserResponse_notFound st sid response ty newRoundId now hcap hs
        unfold mStep
        dsimp only
        rw [this]
        exact ⟨hWF, fun k s h => ⟨s, h, Nat.le_refl _, fun hc => hc⟩⟩
      | some t =>
        have heq := submitUserResponse_found st sid response ty newRoundId now t hcap hs
        unfold mStep
        dsimp only
        rw [heq]
        dsimp only
        constructor
        · intro k s' hs'
          by_cases hk : k = sid
          · subst hk
            rw [setSession_self] at hs'
            cases hs'
            exact hWF _ t hs
          · rw [setSession_other _ _ _ _ hk] at hs'
            exact hWF k s' hs'
        · intro k s h
          by_cases hk : k = sid
          · subst hk
            rw [hs] at h
            cases h
            exact ⟨_, setSession_self _ _ _, Nat.le_refl _, fun hc => hc⟩
          · exact ⟨s, by rw [setSession_other _ _ _ _ hk]; exact h, Nat.le_refl _,
              fun hc => hc⟩
  | addAI sid roundId aiText now =>
    unfold mStep addAIResponse
    dsimp only
    cases hs : st.sessions sid with
    | none => exact ⟨hWF, fun k s h => ⟨s, h, Nat.le_refl _, fun hc => hc⟩⟩
    | some t =>
      dsimp only
      cases hf : t.rounds.find? (fun r => r.id = roundId) with
      | none => exact ⟨hWF, fun k s h => ⟨s, h, Nat.le_refl _, fun hc => hc⟩⟩
      | some r =>
        dsimp only
        constructor
        · intro k s' hs'
          by_cases hk : k = sid
          · subst hk
            rw [setSession_self] at hs'
            cases hs'
            exact hWF _ t hs
          · rw [setSession_other _ _ _ _ hk] at hs'
            exact hWF k s' hs'
        · intro k s h
          by_cases hk : k = sid
          · subst hk
            rw [hs] at h
            cases h
            exact ⟨_, setSession_self _ _ _, Nat.le_refl _, fun hc => hc⟩
          · exact ⟨s, by rw [setSession_other _ _ _ _ hk]; exact h, Nat.le_refl _,
              fun hc => hc⟩
  | addGrading sid roundId g now =>
    unfold mStep addGrading
    dsimp only
    cases hs : st.sessions sid with
    | none => exact ⟨hWF, fun k s h => ⟨s, h, Nat.le_refl _, fun hc => hc⟩⟩
    | some t =>
      dsimp only
      cases hf : t.rounds.find? (fun r => r.id = roundId) with
      | none => exact ⟨hWF, fun k s h => ⟨s, h, Nat.le_refl _, fun hc => hc⟩⟩
      | some r =>
        dsimp only
        constructor
        · intro k s' hs'
          by_cases hk : k = sid
          · subst hk
            rw [setSession_self] at hs'
            cases hs'
            exact hWF _ t hs
          · rw [setSession_other _ _ _ _ hk] at hs'
            exact hWF k s' hs'
        · intro k s h
          by_cases hk : k = sid
          · subst hk
            rw [hs] at h
            cases h
            exact ⟨_, setSession_self _ _ _, Nat.le_refl _, fun hc => hc⟩
          · exact ⟨s, by rw [setSession_other _ _ _ _ hk]; exact h, Nat.le_refl _,
              fun hc => hc⟩
  | advance sid now =>
    cases hs : st.sessions sid with
    | none =>
      unfold mStep advanceRound
      dsimp only
      rw [hs]
      exact ⟨hWF, fun k s h => ⟨s, h, Nat.le_refl _, fun hc => hc⟩⟩
    | some t =>
      by_cases h4 : t.currentRound ≥ 4
      · unfold mStep
        dsimp only
        rw [advanceRound_ge4 st sid now t hs h4]
        constructor
        · intro k s' hs'
          by_cases hk : k = sid
          · subst hk
            rw [setSession_self] at hs'
            cases hs'
            exact hWF _ t hs
          · rw [setSession_other _ _ _ _ hk] at hs'
            exact hWF k s' hs'
        · intro k s h
          by_cases hk : k = sid
          · subst hk
            rw [hs] at h
            cases h
            exact ⟨_, setSession_self _ _ _, Nat.le_refl _, fun _ => rfl⟩
          · exact ⟨s, by rw [setSession_other _ _ _ _ hk]; exact h, Nat.le_refl _,
              fun hc => hc⟩
      · unfold mStep
        dsimp only
        rw [advanceRound_lt4 st sid now t hs h4]
        constructor
        · intro k s' hs'
          by_cases hk : k = sid
          · subst hk
            rw [setSession_self] at hs'
            cases hs'
            exact ⟨show 1 ≤ t.currentRound + 1 by omega, show t.currentRound + 1 ≤ 4 by omega⟩
          · rw [setSession_other _ _ _ _ hk] at hs'
            exact hWF k s' hs'
        · intro k s h
          by_cases hk : k = sid
          · subst hk
            rw [hs] at h
            cases h
            exact ⟨_, setSession_self _ _ _, Nat.le_succ _, fun hc => hc⟩
          · exact ⟨s, by rw [setSession_other _ _ _ _ hk]; exact h, Nat.le_refl _,
              fun hc => hc⟩
  | setFinal sid g now =>
    unfold mStep setFinalGrading
    dsimp only
    cases hs : st.sessions sid with
    | none => exact ⟨hWF, fun k s h => ⟨s, h, Nat.le_refl _, fun hc => hc⟩⟩
    | some t =>
      dsimp only
      constructor
      · intro k s' hs'
        by_cases hk : k = sid
        · subst hk
          rw [setSession_self] at hs'
          cases hs'
          exact hWF _ t hs
        · rw [setSession_other _ _ _ _ hk] at hs'
          exact hWF k s' hs'
      · intro k s h
        by_cases hk : k = sid
        · subst hk
          rw [hs] at h
          cases h
          exact ⟨_, setSession_self _ _ _, Nat.le_refl _, fun _ => rfl⟩
        · exact ⟨s, by rw [setSession_other _ _ _ _ hk]; exact h, Nat.le_refl _,
            fun hc => hc⟩

/-- Claim C5: over every sequence of `DebateManager` operations
(`createSession` with fresh uuids, `addRound`, `submitUserResponse`,
`addAIResponse`, `advanceRound`, `addGrading`, `setFinalGrading`), a
session's `currentRound` never decreases and stays in [1,4] (given
the range invariant that `createSession` establishes), and
`isComplete` is monotonic: once `true` it never returns to `false`.
Instantiating `st` at any intermediate store makes this a statement
about every pair of points in time. -/
theorem c5_monotonicity (ops : List MOp) :
    ∀ st : ManagerState, WFState st → mFresh st ops →
      ∀ sid s, st.sessions sid = some s →
        ∃ s', (mApply st ops).sessions sid = some s'
          ∧ s.currentRound ≤ s'.currentRound
          ∧ 1 ≤ s'.currentRound ∧ s'.currentRound ≤ 4
          ∧ (s.isComplete = true → s'.isComplete = true) := by
  induction ops with
  | nil =>
    intro st hWF _ sid s h
    exact ⟨s, h, Nat.le_refl _, (hWF sid s h).1, (hWF sid s h).2, fun hc => hc⟩
  | cons op rest ih =>
    intro st hWF hF sid s h
    obtain ⟨hF1, hFr⟩ := hF
    obtain ⟨hWF', hmono⟩ := mStep_mono st op hWF hF1
    obtain ⟨s1, h1, hcur1, hcomp1⟩ := hmono sid s h
    obtain ⟨s', h', hcur', hlo, hhi, hcomp'⟩ := ih (mStep st op) hWF' hFr sid s1 h1
    exact ⟨s', h', Nat.le_trans hcur1 hcur', hlo, hhi, fun hc => hcomp' (hcomp1 hc)⟩

/-- Concrete instantiation of `c5_monotonicity`: one freshly created
session advanced twice. -/
theorem c5_monotonicity_witness :
    (WFState (createSession ⟨180, fun _ => none⟩ "A" "t" "t" Side.pro 0).2
      ∧ mFresh (createSession ⟨180, fun _ => none⟩ "A" "t" "t" Side.pro 0).2
          [MOp.advance "A" 1, MOp.advance "A" 2])
    ∧ ∃ s', (mApply (createSession ⟨180, fun _ => none⟩ "A" "t" "t" Side.pro 0).2
          [MOp.advance "A" 1, MOp.advance "A" 2]).sessions "A" = some s'
        ∧ 1 ≤ s'.currentRound ∧ s'.currentRound ≤ 4 :=
  have hWF : WFState (createSession ⟨180, fun _ => none⟩ "A" "t" "t" Side.pro 0).2 := by
    intro k s h
    unfold createSession setSession at h
    dsimp only at h
    by_cases hk : k = "A"
    · rw [if_pos hk] at h
      cases h
      exact ⟨by simp, by simp⟩
    · rw [if_neg hk] at h
      cases h
  have hF : mFresh (createSession ⟨180, fun _ => none⟩ "A" "t" "t" Side.pro 0).2
      [MOp.advance "A" 1, MOp.advance "A" 2] := ⟨trivial, trivial, trivial⟩
  have hsess : (createSession ⟨180, fun _ => none⟩ "A" "t" "t" Side.pro 0).2.sessions "A"
      = some ((createSession ⟨180, fun _ => none⟩ "A" "t" "t" Side.pro 0).1) := by
    unfold createSession
    dsimp only
    exact setSession_self _ _ _
  ⟨⟨hWF, hF⟩,
    match c5_monotonicity [MOp.advance "A" 1, MOp.advance "A" 2]
      (createSession ⟨180, fun _ => none⟩ "A" "t" "t" Side.pro 0).2 hWF hF "A" _ hsess with
    | ⟨s', h', _, hlo, hhi, _⟩ => ⟨s', h', hlo, hhi⟩⟩
